import Mathlib

/-!
Verification of the xterm-mouse core: the ANSI mouse-protocol decoder, the
event-engine state machine (enable/disable lifecycle and click synthesis in
`src/core/Mouse.ts`), and the streaming layer (`eventsOf` / `stream` queue
handlers and the pull loop).  Definitions are shallow embeddings of the
TypeScript source; the decoder's scanning loop, whose implementation file is
not part of the sources (only its regex constants and its test-suite are), is
modelled from the specification.
-/

namespace XtermMouse

/-- Button identifiers, from `src/types` (`ButtonType`). -/
inductive ButtonType where
  | none
  | left
  | middle
  | right
  | wheelUp
  | wheelDown
  | wheelLeft
  | wheelRight
  | back
  | forward
  | unknown
  deriving DecidableEq, Repr

/-- Mouse action kinds, from `src/types` (`MouseEventAction`). -/
inductive MouseAction where
  | move
  | release
  | press
  | drag
  | wheel
  | click
  deriving DecidableEq, Repr

/-- Wire protocol tag, from `src/types` (`MouseEvent.protocol`). -/
inductive Protocol where
  | SGR
  | ESC
  deriving DecidableEq, Repr

/-- A decoded mouse event, from `src/types` (`MouseEventBase` plus the
protocol discriminant).  Coordinates are integers so that the engine's
`Math.abs(event.x - lastPress.x)` translates directly. -/
structure MouseEvent where
  x : Int
  y : Int
  button : ButtonType
  action : MouseAction
  shift : Bool
  alt : Bool
  ctrl : Bool
  raw : Nat
  data : String
  protocol : Protocol
  deriving DecidableEq, Repr

/-! ## Protocol decoder

The regular expressions are from `src/parser/constants.ts`
(`ANSI_RESPONSE_PATTERNS`): SGR `^ESC[<(\d{1,3});(\d{1,4});(\d{1,4})([Mm])`
and legacy `^ESC[M([\x20-\x7f])([\x20-\x7f])([\x20-\x7f])`.  A bounded
quantifier `\d{1,k}` followed by a literal that is not a digit matches
exactly a maximal digit run of length between 1 and `k`: backtracking to a
shorter run would require the following character, a digit, to equal the
literal, which is impossible. -/

/-- Splits off the maximal leading run of decimal digits. -/
def takeDigits : List Char → List Char × List Char
  | [] => ([], [])
  | c :: cs =>
    if c.isDigit then
      let (ds, rest) := takeDigits cs
      (c :: ds, rest)
    else ([], c :: cs)

/-- Decimal value of a digit run (`parseInt` on a matched group). -/
def digitsToNat (ds : List Char) : Nat :=
  ds.foldl (fun n c => 10 * n + (c.toNat - 48)) 0

/-- A successful SGR regex match: button code, the two coordinates, whether
the terminator was lowercase `m`, and the exact matched text. -/
structure SgrRaw where
  cb : Nat
  cx : Nat
  cy : Nat
  releaseTerm : Bool
  text : String
  deriving DecidableEq, Repr

/-- The part of the SGR pattern after the literal `ESC [ <` prefix:
`(\d{1,3});(\d{1,4});(\d{1,4})([Mm])`. -/
def sgrBody (s1 : List Char) : Option (SgrRaw × List Char) :=
  let bs := (takeDigits s1).1
  if bs.length = 0 ∨ 3 < bs.length then none
  else
    match (takeDigits s1).2 with
    | c :: s2 =>
      if c = ';' then
        let xs := (takeDigits s2).1
        if xs.length = 0 ∨ 4 < xs.length then none
        else
          match (takeDigits s2).2 with
          | c2 :: s3 =>
            if c2 = ';' then
              let ys := (takeDigits s3).1
              if ys.length = 0 ∨ 4 < ys.length then none
              else
                match (takeDigits s3).2 with
                | t :: rest =>
                  if t = 'M' ∨ t = 'm' then
                    some ({ cb := digitsToNat bs
                            cx := digitsToNat xs
                            cy := digitsToNat ys
                            releaseTerm := t = 'm'
                            text := String.mk ('\x1b' :: '[' :: '<' ::
                              (bs ++ ';' :: (xs ++ ';' :: (ys ++ [t])))) },
                          rest)
                  else none
                | [] => none
            else none
          | [] => none
      else none
    | [] => none

/-- The anchored SGR pattern `^ESC[<...` applied at the head of the input. -/
def sgrMatch (s : List Char) : Option (SgrRaw × List Char) :=
  match s with
  | c1 :: c2 :: c3 :: s1 =>
    if c1 = '\x1b' ∧ c2 = '[' ∧ c3 = '<' then sgrBody s1 else none
  | _ => none

/-- A successful legacy-protocol match: raw code and coordinates already
shifted by 32, plus the exact matched text. -/
structure EscRaw where
  cb : Nat
  cx : Nat
  cy : Nat
  text : String
  deriving DecidableEq, Repr

/-- The anchored legacy pattern `^ESC[M([\x20-\x7f])([\x20-\x7f])([\x20-\x7f])`
applied at the head of the input. -/
def escMatch (s : List Char) : Option (EscRaw × List Char) :=
  match s with
  | c1 :: c2 :: c3 :: b :: x :: y :: rest =>
    if c1 = '\x1b' ∧ c2 = '[' ∧ c3 = 'M'
        ∧ (0x20 ≤ b.toNat ∧ b.toNat ≤ 0x7f)
        ∧ (0x20 ≤ x.toNat ∧ x.toNat ≤ 0x7f)
        ∧ (0x20 ≤ y.toNat ∧ y.toNat ≤ 0x7f) then
      some ({ cb := b.toNat - 32
              cx := x.toNat - 32
              cy := y.toNat - 32
              text := String.mk ['\x1b', '[', 'M', b, x, y] },
            rest)
    else none
  | _ => none

/-- Modelled from the spec: the button/action bit table of §4.1 step 5 for a
numeric button code (`decodeSGRButton` / `decodeESCButton` of the absent
`src/parser/ansiParser.ts`), cross-checked against `ansiParser.test.ts`.
Low two bits select left/middle/right/release-class, `0x20` is the motion
flag, `0x40` the wheel flag with codes 64-67 mapping to the four wheel
directions, codes 128/129 are back/forward, and a lowercase `m` terminator
forces the action to `release`. -/
def decodeButtonAction (cb : Nat) (releaseTerm : Bool) : ButtonType × MouseAction :=
  let motion := cb &&& 32 ≠ 0
  let base : ButtonType × MouseAction :=
    if cb = 128 then (ButtonType.back, MouseAction.press)
    else if cb = 129 then (ButtonType.forward, MouseAction.press)
    else if cb &&& 64 ≠ 0 then
      if cb = 64 then (ButtonType.wheelUp, MouseAction.wheel)
      else if cb = 65 then (ButtonType.wheelDown, MouseAction.wheel)
      else if cb = 66 then (ButtonType.wheelLeft, MouseAction.wheel)
      else if cb = 67 then (ButtonType.wheelRight, MouseAction.wheel)
      else (ButtonType.unknown, MouseAction.press)
    else if cb &&& 3 = 3 then
      (ButtonType.none, if motion then MouseAction.move else MouseAction.release)
    else
      let b := if cb &&& 3 = 0 then ButtonType.left
               else if cb &&& 3 = 1 then ButtonType.middle
               else ButtonType.right
      (b, if motion then MouseAction.drag else MouseAction.press)
  if releaseTerm then (base.1, MouseAction.release) else base

/-- Modelled from the spec: the event built from an SGR match (§4.1). -/
def mkSgrEvent (m : SgrRaw) : MouseEvent :=
  let (b, a) := decodeButtonAction m.cb m.releaseTerm
  { x := (m.cx : Int)
    y := (m.cy : Int)
    button := b
    action := a
    shift := m.cb &&& 4 ≠ 0
    alt := m.cb &&& 8 ≠ 0
    ctrl := m.cb &&& 16 ≠ 0
    raw := m.cb
    data := m.text
    protocol := Protocol.SGR }

/-- Modelled from the spec: the event built from a legacy match (§4.1). -/
def mkEscEvent (m : EscRaw) : MouseEvent :=
  let (b, a) := decodeButtonAction m.cb false
  { x := (m.cx : Int)
    y := (m.cy : Int)
    button := b
    action := a
    shift := m.cb &&& 4 ≠ 0
    alt := m.cb &&& 8 ≠ 0
    ctrl := m.cb &&& 16 ≠ 0
    raw := m.cb
    data := m.text
    protocol := Protocol.ESC }

/-- Modelled from the spec: the byte-by-byte scanning loop of
`parseMouseEvents` (§4.1 steps 1-2, 6-7; the implementation file
`src/parser/ansiParser.ts` is absent from the sources).  At each position the
two anchored patterns are tried; on a match the scanner emits the event
unless its matched text equals the most recently emitted text (run-length
deduplication) and continues after the match; otherwise it advances one
character.  The fuel argument strictly exceeds the remaining input length on
every call, so it never runs out. -/
def scanAux : Nat → Option String → List Char → List MouseEvent
  | 0, _, _ => []
  | _ + 1, _, [] => []
  | fuel + 1, last, c :: cs =>
    match sgrMatch (c :: cs) with
    | some (m, rest) =>
      if last = some m.text then scanAux fuel last rest
      else mkSgrEvent m :: scanAux fuel (some m.text) rest
    | none =>
      match escMatch (c :: cs) with
      | some (m, rest) =>
        if last = some m.text then scanAux fuel last rest
        else mkEscEvent m :: scanAux fuel (some m.text) rest
      | none => scanAux fuel last cs

/-- Modelled from the spec: one decoder invocation over a chunk given the
cross-call deduplication memory (`last`). -/
def parseMouseEventsFrom (last : Option String) (s : List Char) : List MouseEvent :=
  scanAux (s.length + 1) last s

/-- `parseMouseEvents` on a string chunk. -/
def parseMouseEvents (last : Option String) (input : String) : List MouseEvent :=
  parseMouseEventsFrom last input.data

/-! ## Event engine (`src/core/Mouse.ts`)

`handleEvent` iterates over the decoded events of one input chunk inside a
single `try`: each event is emitted on its action channel, a `press` is stored
as `lastPress`, and a `release` within distance 1 of the stored press
schedules a synthesized `click` via `process.nextTick` (so it is published
after the chunk's synchronous emissions) and clears `lastPress`.  A throwing
subscriber is caught by the single `catch`, which emits once on the `error`
channel and ends the loop. -/

/-- What the engine pushes to the emitter.  `event` is the synchronous
`emitter.emit(event.action, event)`, `click` the deferred
`emitter.emit('click', clickEvent)` scheduled on the next tick, and `error`
the `emitter.emit('error', err)` from the `catch` block. -/
inductive Emission where
  | event (e : MouseEvent)
  | click (e : MouseEvent)
  | error
  deriving DecidableEq, Repr

/-- Result of running `handleEvent`'s loop: the final `lastPress`, the
synchronous emissions in order, and the deferred clicks paired with the index
of the triggering release inside the chunk. -/
structure HandleOut where
  lastPress : Option MouseEvent
  emits : List Emission
  clicks : List (Nat × MouseEvent)
  deriving DecidableEq, Repr

/-- The click, if any, that a `release` event `e` at chunk index `i` schedules
given the stored press `lp`: the source's
`if (xDiff <= 1 && yDiff <= 1) { ... nextTick(emit('click', clickEvent)) }`
with `clickEvent = { ...event, action: 'click' }`. -/
def clickOf (i : Nat) (lp : Option MouseEvent) (e : MouseEvent) :
    List (Nat × MouseEvent) :=
  match lp with
  | some p =>
    if (e.x - p.x).natAbs ≤ 1 ∧ (e.y - p.y).natAbs ≤ 1 then
      [(i, { e with action := MouseAction.click })]
    else []
  | none => []

/-- The loop body of `handleEvent` (Mouse.ts lines 28-54).  `throws e = true`
means the subscriber callback invoked synchronously by
`emitter.emit(e.action, e)` throws; the single surrounding `catch` then emits
on `error` and abandons the rest of the chunk. -/
def handleEventsAux (throws : MouseEvent → Bool) :
    Nat → Option MouseEvent → List MouseEvent → HandleOut
  | _, lp, [] => ⟨lp, [], []⟩
  | i, lp, e :: rest =>
    if throws e then ⟨lp, [Emission.error], []⟩
    else
      match e.action with
      | MouseAction.press =>
        let r := handleEventsAux throws (i + 1) (some e) rest
        ⟨r.lastPress, Emission.event e :: r.emits, r.clicks⟩
      | MouseAction.release =>
        let r := handleEventsAux throws (i + 1) none rest
        ⟨r.lastPress, Emission.event e :: r.emits, clickOf i lp e ++ r.clicks⟩
      | _ =>
        let r := handleEventsAux throws (i + 1) lp rest
        ⟨r.lastPress, Emission.event e :: r.emits, r.clicks⟩

/-- Handler function that never throws. -/
def noThrow : MouseEvent → Bool := fun _ => false

/-- How one dispatched event updates `lastPress`: a press is stored, a
release clears the slot unconditionally, anything else leaves it alone. -/
def stepLP (lp : Option MouseEvent) (e : MouseEvent) : Option MouseEvent :=
  if e.action = MouseAction.press then some e
  else if e.action = MouseAction.release then none
  else lp

/-- `handleEvent` on one chunk of decoded events with well-behaved
subscribers. -/
def runChunk (lp : Option MouseEvent) (events : List MouseEvent) : HandleOut :=
  handleEventsAux noThrow 0 lp events

/-- The order in which subscribers observe the chunk's emissions: the
synchronous emissions first, then the `process.nextTick`-deferred clicks in
scheduling order. -/
def published (r : HandleOut) : List Emission :=
  r.emits ++ r.clicks.map (fun p => Emission.click p.2)

/-! ## Lifecycle (`enable` / `disable` / `destroy`) -/

/-- The error surfaced by a lifecycle or stream operation: the plain `Error`
thrown for a non-TTY input stream, the `MouseError` wrappers of
`enable`/`disable`, the `MouseError('The operation was aborted.')` of the
cancellation paths, and the `MouseError` wrapping a subscriber error
republished to a lazy sequence. -/
inductive MError where
  | notTTY
  | enableFailed
  | disableFailed
  | aborted
  | streamError
  deriving DecidableEq, Repr

/-- The fields of the `Mouse` instance relevant to its lifecycle, plus the
listener table of its emitter. -/
structure EngineState where
  enabled : Bool
  previousEncoding : Option String
  previousRawMode : Option Bool
  lastPress : Option MouseEvent
  emitterHasListeners : Bool
  deriving DecidableEq, Repr

/-- The observable state of the input/output streams the `Mouse` drives.
`writeFails` / `setRawModeFails` make the corresponding collaborator call
throw, as in the failure-injection tests of `Mouse.test.ts`. -/
structure World where
  isTTY : Bool
  isRaw : Bool
  encoding : Option String
  writeFails : Bool
  setRawModeFails : Bool
  output : List String
  flowing : Bool
  subscribed : Bool
  deriving DecidableEq, Repr

/-- Outcome of a lifecycle call: the error it throws, if any, and the engine
and stream state after it returns or after its `finally` block ran. -/
structure OpResult where
  err : Option MError
  state : EngineState
  world : World
  deriving DecidableEq, Repr

/-- The concatenation of the four protocol-enable sequences from
`src/parser/constants.ts` (`ANSI_CODES.*.on`), written in one
`outputStream.write` call. -/
def enableCodes : String := "\x1b[?1000h\x1b[?1002h\x1b[?1003h\x1b[?1006h"

/-- The concatenation of the four protocol-disable sequences
(`ANSI_CODES.*.off`, reversed order), written in one call. -/
def disableCodes : String := "\x1b[?1006l\x1b[?1003l\x1b[?1002l\x1b[?1000l"

/-- `Mouse.enable` (Mouse.ts lines 96-126): no-op when already enabled; a
plain error when the input stream is not a TTY; otherwise it snapshots the
raw-mode/encoding settings, sets `enabled`, writes the enable codes, switches
the input stream to raw UTF-8 flowing mode and subscribes to its data events.
The `catch` resets `enabled` to `false` (the snapshots are not rolled back)
and rethrows a `MouseError`. -/
def enable (s : EngineState) (w : World) : OpResult :=
  if s.enabled then ⟨none, s, w⟩
  else if w.isTTY then
    let s1 : EngineState :=
      { s with previousRawMode := some w.isRaw
               previousEncoding := w.encoding
               enabled := true }
    if w.writeFails then ⟨some MError.enableFailed, { s1 with enabled := false }, w⟩
    else
      let w1 := { w with output := w.output ++ [enableCodes] }
      if w.setRawModeFails then
        ⟨some MError.enableFailed, { s1 with enabled := false }, w1⟩
      else
        ⟨none, s1,
          { w1 with isRaw := true
                    encoding := some "utf8"
                    flowing := true
                    subscribed := true }⟩
  else ⟨some MError.notTTY, s, w⟩

/-- `Mouse.disable` (Mouse.ts lines 133-163): no-op when not enabled;
otherwise it unsubscribes and pauses the input stream, restores the
snapshotted raw mode and encoding when present, and writes the disable codes.
A throwing step surfaces a `MouseError`, but the `finally` block always
forces `enabled := false` and clears both snapshots. -/
def disable (s : EngineState) (w : World) : OpResult :=
  if s.enabled then
    let sFin : EngineState :=
      { s with enabled := false, previousRawMode := none, previousEncoding := none }
    let w1 := { w with subscribed := false, flowing := false }
    if s.previousRawMode.isSome ∧ w.setRawModeFails then
      ⟨some MError.disableFailed, sFin, w1⟩
    else
      let w2 := match s.previousRawMode with
        | some rm => { w1 with isRaw := rm }
        | none => w1
      let w3 := match s.previousEncoding with
        | some enc => { w2 with encoding := some enc }
        | none => w2
      if w.writeFails then ⟨some MError.disableFailed, sFin, w3⟩
      else ⟨none, sFin, { w3 with output := w3.output ++ [disableCodes] }⟩
  else ⟨none, s, w⟩

/-- `Mouse.destroy` (Mouse.ts lines 510-513): `disable()` followed by
`emitter.removeAllListeners()`.  An exception from `disable` propagates
before the listeners are removed. -/
def destroy (s : EngineState) (w : World) : OpResult :=
  let r := disable s w
  match r.err with
  | some e => ⟨some e, r.state, r.world⟩
  | none => ⟨none, { r.state with emitterHasListeners := false }, r.world⟩

/-- `Mouse.isEnabled`. -/
def isEnabled (s : EngineState) : Bool := s.enabled

/-! ## Streaming layer (`eventsOf` / `stream`)

Both async generators keep a FIFO `queue`, an error FIFO `errorQueue`, an
optional `latest` slot and an optional pending-consumer slot
(`resolveNext`/`rejectNext`, modelled by `waiting`). -/

/-- The mutable state shared by a generator's handlers and its pull loop. -/
structure PullState where
  queue : List MouseEvent
  errorQueue : List MError
  latest : Option MouseEvent
  waiting : Bool
  deriving DecidableEq, Repr

/-- The state a generator starts with. -/
def emptyPullState : PullState := ⟨[], [], none, false⟩

/-- The per-event handler shared by `eventsOf` and `stream` with effective
queue capacity `cap`: a waiting consumer is resolved directly (zero-copy
handoff), `latestOnly` overwrites the single slot, and otherwise the event is
appended to the FIFO after dropping the oldest entry when the queue is full
(`if (queue.length >= cap) queue.shift(); queue.push(ev)`).  The second
component is the event handed to a resolved waiting consumer. -/
def subPush (cap : Nat) (latestOnly : Bool) (st : PullState) (e : MouseEvent) :
    PullState × Option MouseEvent :=
  if st.waiting then ({ st with waiting := false, latest := none }, some e)
  else if latestOnly then ({ st with latest := some e }, none)
  else if cap ≤ st.queue.length then
    ({ st with queue := st.queue.drop 1 ++ [e] }, none)
  else ({ st with queue := st.queue ++ [e] }, none)

/-- The handler installed by `eventsOf` (Mouse.ts lines 302-321): the
effective capacity is `finalMaxQueue = Math.min(maxQueue, 1000)`. -/
def eventsOfPush (maxQueue : Nat) (latestOnly : Bool) :
    PullState → MouseEvent → PullState × Option MouseEvent :=
  subPush (min maxQueue 1000) latestOnly

/-- The handler installed by `stream` (Mouse.ts lines 405-429): the requested
`maxQueue` is used as the capacity directly. -/
def streamPush (maxQueue : Nat) (latestOnly : Bool) :
    PullState → MouseEvent → PullState × Option MouseEvent :=
  subPush maxQueue latestOnly

/-- Feeding a list of matching events to a handler while the consumer never
waits in between. -/
def feed (push : PullState → MouseEvent → PullState × Option MouseEvent)
    (st : PullState) (events : List MouseEvent) : PullState :=
  events.foldl (fun s e => (push s e).1) st

/-- What one turn of the generator's `while (true)` head does. -/
inductive PullStep where
  | raise (e : MError)
  | yield (ev : MouseEvent)
  | wait
  deriving DecidableEq, Repr

/-- One iteration of the pull loop (Mouse.ts lines 349-375 and 459-485): an
aborted signal raises a fresh cancellation error first, then a queued error
is dequeued and raised, then a buffered event (FIFO head, or the `latest`
slot) is yielded, and otherwise the consumer suspends. -/
def pullNext (aborted : Bool) (st : PullState) : PullStep × PullState :=
  if aborted then (PullStep.raise MError.aborted, st)
  else
    match st.errorQueue with
    | e :: es => (PullStep.raise e, { st with errorQueue := es })
    | [] =>
      match st.queue with
      | ev :: rest => (PullStep.yield ev, { st with queue := rest })
      | [] =>
        match st.latest with
        | some ev => (PullStep.yield ev, { st with latest := none })
        | none => (PullStep.wait, { st with waiting := true })

/-- The generators' `abortHandler`: a suspended consumer is rejected with the
cancellation error directly; otherwise the error is appended to the error
FIFO.  The second component is the error delivered to a rejected waiting
consumer. -/
def abortFire (st : PullState) : PullState × Option MError :=
  if st.waiting then ({ st with waiting := false }, some MError.aborted)
  else ({ st with errorQueue := st.errorQueue ++ [MError.aborted] }, none)

/-! ## Concrete material used by the claim statements -/

/-- A decoded event with the given coordinates and action (left button, no
modifiers), as the SGR decoder would deliver it. -/
def mkEv (x y : Int) (a : MouseAction) : MouseEvent :=
  { x := x, y := y, button := ButtonType.left, action := a
    shift := false, alt := false, ctrl := false, raw := 0
    data := "", protocol := Protocol.SGR }

/-- A subscriber-callback oracle that throws exactly while a `press` event is
being emitted. -/
def throwsOnPress (e : MouseEvent) : Bool :=
  match e.action with
  | MouseAction.press => true
  | _ => false

/-- The claim that every decoded press that is later followed by a release
with no intervening release (intervening presses allowed) yields exactly one
synthesized click, carrying the release's coordinates and button, precisely
when the press and the release are within the click-distance threshold 1. -/
def c1ClaimStatement : Prop :=
  ∀ (lp : Option MouseEvent) (A B C : List MouseEvent) (ep er : MouseEvent),
    ep.action = MouseAction.press →
    er.action = MouseAction.release →
    (∀ b ∈ B, b.action ≠ MouseAction.release) →
    (runChunk lp (A ++ ep :: B ++ er :: C)).clicks.filter
        (fun q => decide (q.1 = A.length + B.length + 1)) =
      (if max (er.x - ep.x).natAbs (er.y - ep.y).natAbs ≤ 1 then
        [(A.length + B.length + 1, { er with action := MouseAction.click })]
      else [])

/-- The claim that a subscriber callback throwing during dispatch never
prevents the other events of the same chunk (whose own emission does not
throw) from being dispatched. -/
def c6ClaimStatement : Prop :=
  ∀ (throws : MouseEvent → Bool) (lp : Option MouseEvent)
    (events : List MouseEvent) (e : MouseEvent),
    e ∈ events → throws e = false →
    Emission.event e ∈ (handleEventsAux throws 0 lp events).emits

/-- The claim that the effective queue capacity of both lazy sequences is
clamped to the hard ceiling 1000: buffering never exceeds
`min(requested maxQueue, 1000)` pending events. -/
def c7ClaimStatement : Prop :=
  ∀ (maxQueue : Nat) (latestOnly : Bool) (events : List MouseEvent),
    (feed (eventsOfPush maxQueue latestOnly) emptyPullState events).queue.length ≤
        min maxQueue 1000 ∧
      (feed (streamPush maxQueue latestOnly) emptyPullState events).queue.length ≤
        min maxQueue 1000

/-- A stream-collaborator state for an interactive terminal on which every
operation succeeds. -/
def goodWorld : World :=
  { isTTY := true, isRaw := false, encoding := none
    writeFails := false, setRawModeFails := false
    output := [], flowing := true, subscribed := false }

/-- A freshly constructed `Mouse`: disabled, no snapshots, no pending press,
with subscribers registered on its emitter. -/
def initEngine : EngineState :=
  { enabled := false, previousEncoding := none, previousRawMode := none
    lastPress := none, emitterHasListeners := true }

/-! ## Helper lemmas about the dispatch loop -/

/-- Unfolding one non-throwing step of the dispatch loop. -/
theorem handle_cons (throws : MouseEvent → Bool) (i : Nat)
    (lp : Option MouseEvent) (e : MouseEvent) (rest : List MouseEvent)
    (ht : throws e = false) :
    handleEventsAux throws i lp (e :: rest) =
      ⟨(handleEventsAux throws (i + 1) (stepLP lp e) rest).lastPress,
        Emission.event e ::
          (handleEventsAux throws (i + 1) (stepLP lp e) rest).emits,
        (if e.action = MouseAction.release then clickOf i lp e else []) ++
          (handleEventsAux throws (i + 1) (stepLP lp e) rest).clicks⟩ := by
  cases hA : e.action <;> simp [handleEventsAux, stepLP, ht, hA]

/-- With well-behaved subscribers, the synchronous emissions of a chunk are
exactly its events, on their own channels, in decode order. -/
theorem emits_noThrow (i : Nat) (lp : Option MouseEvent) (events : List MouseEvent) :
    (handleEventsAux noThrow i lp events).emits = events.map Emission.event := by
  induction events generalizing i lp with
  | nil => simp [handleEventsAux]
  | cons e rest ih =>
    rw [handle_cons noThrow i lp e rest rfl]
    simp [ih]

/-- Membership in `clickOf` forces the index and the payload. -/
theorem clickOf_mem {i : Nat} {lp : Option MouseEvent} {e : MouseEvent}
    {p : Nat × MouseEvent} (hp : p ∈ clickOf i lp e) :
    p = (i, { e with action := MouseAction.click }) := by
  rcases lp with _ | q
  · simp [clickOf] at hp
  · by_cases h : (e.x - q.x).natAbs ≤ 1 ∧ (e.y - q.y).natAbs ≤ 1 <;>
      simp [clickOf, h] at hp
    exact hp

/-- Every deferred click is tagged with an index inside the processed
segment. -/
theorem clicks_mem_bounds (throws : MouseEvent → Bool) (i : Nat)
    (lp : Option MouseEvent) (events : List MouseEvent) (p : Nat × MouseEvent)
    (hp : p ∈ (handleEventsAux throws i lp events).clicks) :
    i ≤ p.1 ∧ p.1 < i + events.length := by
  induction events generalizing i lp with
  | nil => simp [handleEventsAux] at hp
  | cons e rest ih =>
    by_cases ht : throws e = true
    · simp [handleEventsAux, ht] at hp
    · rw [Bool.not_eq_true] at ht
      rw [handle_cons throws i lp e rest ht] at hp
      simp only [List.mem_append] at hp
      rcases hp with hp | hp
      · by_cases hA : e.action = MouseAction.release
        · rw [if_pos hA] at hp
          have hq := clickOf_mem hp
          subst hq
          show i ≤ i ∧ i < i + (e :: rest).length
          simp only [List.length_cons]
          omega
        · rw [if_neg hA] at hp
          simp at hp
      · have := ih (i + 1) (stepLP lp e) hp
        simp only [List.length_cons]
        omega

/-- Every deferred click comes from a `release` event of the chunk and copies
its fields, with the action replaced by `click`. -/
theorem clicks_release (throws : MouseEvent → Bool) (i : Nat)
    (lp : Option MouseEvent) (events : List MouseEvent) (p : Nat × MouseEvent)
    (hp : p ∈ (handleEventsAux throws i lp events).clicks) :
    ∃ er, events[p.1 - i]? = some er ∧ er.action = MouseAction.release ∧
      p.2 = { er with action := MouseAction.click } := by
  induction events generalizing i lp with
  | nil => simp [handleEventsAux] at hp
  | cons e rest ih =>
    by_cases ht : throws e = true
    · simp [handleEventsAux, ht] at hp
    · rw [Bool.not_eq_true] at ht
      rw [handle_cons throws i lp e rest ht] at hp
      simp only [List.mem_append] at hp
      rcases hp with hp | hp
      · by_cases hA : e.action = MouseAction.release
        · rw [if_pos hA] at hp
          have hq := clickOf_mem hp
          subst hq
          exact ⟨e, by simp, hA, rfl⟩
        · rw [if_neg hA] at hp
          simp at hp
      · have hb := clicks_mem_bounds throws (i + 1) (stepLP lp e) rest p hp
        obtain ⟨er, h1, h2, h3⟩ := ih (i + 1) (stepLP lp e) hp
        refine ⟨er, ?_, h2, h3⟩
        have hidx : p.1 - i = (p.1 - (i + 1)) + 1 := by omega
        rw [hidx]
        simpa using h1

/-- Processing a concatenation whose first part has no throwing subscriber
splits into processing the parts in sequence. -/
theorem handle_append (throws : MouseEvent → Bool) (i : Nat)
    (lp : Option MouseEvent) (xs ys : List MouseEvent)
    (hxs : ∀ x ∈ xs, throws x = false) :
    handleEventsAux throws i lp (xs ++ ys) =
      ⟨(handleEventsAux throws (i + xs.length)
          (handleEventsAux throws i lp xs).lastPress ys).lastPress,
        (handleEventsAux throws i lp xs).emits ++
          (handleEventsAux throws (i + xs.length)
            (handleEventsAux throws i lp xs).lastPress ys).emits,
        (handleEventsAux throws i lp xs).clicks ++
          (handleEventsAux throws (i + xs.length)
            (handleEventsAux throws i lp xs).lastPress ys).clicks⟩ := by
  induction xs generalizing i lp with
  | nil => simp [handleEventsAux]
  | cons x xs ih =>
    have hx : throws x = false := hxs x (by simp)
    have hxs' : ∀ a ∈ xs, throws a = false := fun a ha => hxs a (by simp [ha])
    have hidx : i + (xs.length + 1) = (i + 1) + xs.length := by omega
    rw [List.cons_append, handle_cons throws i lp x (xs ++ ys) hx,
      ih (i + 1) (stepLP lp x) hxs', handle_cons throws i lp x xs hx]
    simp [List.append_assoc, hidx]

/-- Events that are neither presses nor releases leave the pending press
unchanged. -/
theorem lastPress_const (i : Nat) (lp : Option MouseEvent)
    (B : List MouseEvent)
    (hB : ∀ b ∈ B, b.action ≠ MouseAction.press ∧ b.action ≠ MouseAction.release) :
    (handleEventsAux noThrow i lp B).lastPress = lp := by
  induction B generalizing i lp with
  | nil => simp [handleEventsAux]
  | cons b B ih =>
    have hb := hB b (by simp)
    have hB' : ∀ a ∈ B, a.action ≠ MouseAction.press ∧ a.action ≠ MouseAction.release :=
      fun a ha => hB a (by simp [ha])
    have hlp : stepLP lp b = lp := by simp [stepLP, hb.1, hb.2]
    rw [handle_cons noThrow i lp b B rfl]
    simp [ih _ _ hB', hlp]

/-! ## Claim C1 -/

/-- Claim C1 as stated is false: an intervening press overwrites the pending
press, so a press at (1,1) followed — with no intervening release — by a
release at (10,10), distance (9,9) beyond the threshold, nevertheless gets a
click synthesized, because a second press at (10,10) sits between them. -/
theorem c1_counterexample : ¬ c1ClaimStatement := by
  intro h
  have h2 := h none [] [mkEv 10 10 MouseAction.press] []
    (mkEv 1 1 MouseAction.press) (mkEv 10 10 MouseAction.release)
    rfl rfl (by decide)
  exact absurd h2 (by decide)

/-- Claim C1 (amended): for every decoded press event at (x0,y0) that is
followed by a decoded release event at (x,y) with no intervening press or
release, the engine synthesizes exactly one click event carrying the
release's coordinates and button if and only if max(|x-x0|,|y-y0|) is at most
the click distance threshold, which the code fixes at 1; a release at
distance (2,2) synthesizes no click. -/
theorem c1_click_synthesis (lp : Option MouseEvent) (A B C : List MouseEvent)
    (ep er : MouseEvent)
    (hpr : ep.action = MouseAction.press)
    (hre : er.action = MouseAction.release)
    (hB : ∀ b ∈ B, b.action ≠ MouseAction.press ∧ b.action ≠ MouseAction.release) :
    (runChunk lp (A ++ ep :: B ++ er :: C)).clicks.filter
        (fun q => decide (q.1 = A.length + B.length + 1)) =
      (if max (er.x - ep.x).natAbs (er.y - ep.y).natAbs ≤ 1 then
        [(A.length + B.length + 1, { er with action := MouseAction.click })]
      else []) := by
  have hnoA : ∀ x ∈ A, noThrow x = false := fun _ _ => rfl
  have hnoB : ∀ x ∈ B, noThrow x = false := fun _ _ => rfl
  unfold runChunk
  rw [show A ++ ep :: B ++ er :: C = A ++ (ep :: (B ++ er :: C)) by
    simp [List.append_assoc]]
  rw [handle_append noThrow 0 lp A (ep :: (B ++ er :: C)) hnoA]
  rw [handle_cons noThrow (0 + A.length)
    (handleEventsAux noThrow 0 lp A).lastPress ep (B ++ er :: C) rfl]
  have hstep : stepLP (handleEventsAux noThrow 0 lp A).lastPress ep = some ep := by
    simp [stepLP, hpr]
  rw [hstep,
    handle_append noThrow (0 + A.length + 1) (some ep) B (er :: C) hnoB,
    lastPress_const (0 + A.length + 1) (some ep) B hB,
    handle_cons noThrow (0 + A.length + 1 + B.length) (some ep) er C rfl]
  simp only [if_pos hre, hpr]
  have hnp : MouseAction.press ≠ MouseAction.release := by decide
  simp only [if_neg hnp]
  simp only [List.filter_append, List.nil_append]
  have hfA : (handleEventsAux noThrow 0 lp A).clicks.filter
      (fun q => decide (q.1 = A.length + B.length + 1)) = [] := by
    refine List.filter_eq_nil_iff.mpr fun q hq => ?_
    have := clicks_mem_bounds noThrow 0 lp A q hq
    simp only [decide_eq_true_eq]
    omega
  have hfB : (handleEventsAux noThrow (0 + A.length + 1) (some ep) B).clicks.filter
      (fun q => decide (q.1 = A.length + B.length + 1)) = [] := by
    refine List.filter_eq_nil_iff.mpr fun q hq => ?_
    have := clicks_mem_bounds noThrow (0 + A.length + 1) (some ep) B q hq
    simp only [decide_eq_true_eq]
    omega
  have hfC : (handleEventsAux noThrow (0 + A.length + 1 + B.length + 1)
        (stepLP (some ep) er) C).clicks.filter
      (fun q => decide (q.1 = A.length + B.length + 1)) = [] := by
    refine List.filter_eq_nil_iff.mpr fun q hq => ?_
    have := clicks_mem_bounds noThrow (0 + A.length + 1 + B.length + 1)
      (stepLP (some ep) er) C q hq
    simp only [decide_eq_true_eq]
    omega
  rw [hfA, hfB, hfC]
  simp only [List.append_nil, List.nil_append]
  by_cases hd : (er.x - ep.x).natAbs ≤ 1 ∧ (er.y - ep.y).natAbs ≤ 1
  · rw [if_pos (Nat.max_le.mpr hd)]
    simp only [clickOf, if_pos hd]
    rw [show 0 + A.length + 1 + B.length = A.length + B.length + 1 by omega]
    simp
  · rw [if_neg (fun hmax => hd (Nat.max_le.mp hmax))]
    simp [clickOf, hd]

/-- Witness for `c1_click_synthesis`: press at (10,20), release at (11,21),
distance (1,1) within the default threshold, yields exactly the click at
(11,21). -/
theorem c1_click_synthesis_witness :
    (runChunk none [mkEv 10 20 MouseAction.press,
        mkEv 11 21 MouseAction.release]).clicks.filter
        (fun q => decide (q.1 = 1)) =
      [(1, { mkEv 11 21 MouseAction.release with action := MouseAction.click })] := by
  have h := c1_click_synthesis none [] [] [] (mkEv 10 20 MouseAction.press)
    (mkEv 11 21 MouseAction.release) rfl rfl (by decide)
  simpa [mkEv] using h

/-! ## Claim C2 -/

/-- Claim C2, evaluated against the source: the `Mouse` class of
`src/core/Mouse.ts` has no `pause`/`resume` operations and no paused flag at
all — `handleEvent` publishes every decoded event unconditionally, in every
engine state (the only per-event state it consults is `lastPress`), so no
discard path exists.  In particular a decoded press is always emitted. -/
theorem c2_no_discard_path :
    (∀ (lp : Option MouseEvent) (events : List MouseEvent),
        (handleEventsAux noThrow 0 lp events).emits = events.map Emission.event) ∧
      (runChunk none [mkEv 10 20 MouseAction.press]).emits =
        [Emission.event (mkEv 10 20 MouseAction.press)] :=
  ⟨fun lp events => emits_noThrow 0 lp events, by decide⟩

/-! ## Claim C3 -/

/-- Claim C3, evaluated against the source: the click-distance test of
`handleEvent` is the hardcoded `xDiff <= 1 && yDiff <= 1` — the constructor
accepts no `clickDistanceThreshold` option — so a press at (10,20) followed by
a release at (11,20), which a configured threshold 0 must not turn into a
click, still synthesizes one. -/
theorem c3_threshold_hardcoded :
    (runChunk none [mkEv 10 20 MouseAction.press,
        mkEv 11 20 MouseAction.release]).clicks =
      [(1, { mkEv 11 20 MouseAction.release with action := MouseAction.click })] := by
  decide

/-! ## Claim C6 -/

/-- Claim C6 as stated is false: the single `try`/`catch` wraps the whole
dispatch loop, so when the press handler throws, the release event of the
same chunk — whose own emission would not throw — is never dispatched; only
the error is published. -/
theorem c6_counterexample : ¬ c6ClaimStatement := by
  intro h
  have h2 := h throwsOnPress none
    [mkEv 10 20 MouseAction.press, mkEv 10 20 MouseAction.release]
    (mkEv 10 20 MouseAction.release) (by decide) (by decide)
  exact absurd h2 (by decide)

/-- Claim C6 (amended): if a subscriber callback throws while being invoked,
the engine catches the exception and republishes it on the distinct `error`
channel, and the pending press keeps the value it had before the throwing
event; however, dispatch of the chunk is abandoned: the remaining events are
neither dispatched nor do they participate in click synthesis. -/
theorem c6_dispatch_abort (throws : MouseEvent → Bool) (i : Nat)
    (lp : Option MouseEvent) (xs ys : List MouseEvent) (e : MouseEvent)
    (hxs : ∀ x ∈ xs, throws x = false) (he : throws e = true) :
    handleEventsAux throws i lp (xs ++ e :: ys) =
      ⟨(handleEventsAux throws i lp xs).lastPress,
        (handleEventsAux throws i lp xs).emits ++ [Emission.error],
        (handleEventsAux throws i lp xs).clicks⟩ := by
  rw [handle_append throws i lp xs (e :: ys) hxs]
  simp [handleEventsAux, he]

/-- Witness for `c6_dispatch_abort`: a move, then a press whose subscriber
throws, then a release — the move is dispatched, the error is republished,
and nothing else of the chunk is processed. -/
theorem c6_dispatch_abort_witness :
    handleEventsAux throwsOnPress 0 none
        ([mkEv 1 1 MouseAction.move] ++ mkEv 10 20 MouseAction.press ::
          [mkEv 10 20 MouseAction.release]) =
      ⟨none, [Emission.event (mkEv 1 1 MouseAction.move), Emission.error], []⟩ := by
  have h := c6_dispatch_abort throwsOnPress 0 none [mkEv 1 1 MouseAction.move]
    [mkEv 10 20 MouseAction.release] (mkEv 10 20 MouseAction.press)
    (by decide) (by decide)
  rw [h]
  decide

/-! ## Claim C9 -/

/-- Claim C9: within one engine instance the events of a chunk are published
in decode order, and every synthesized click is published after all of them —
in particular strictly after its triggering release, which sits at index
`p.1 < events.length` of the published prefix and is copied into the click. -/
theorem c9_publish_order (lp : Option MouseEvent) (events : List MouseEvent) :
    published (runChunk lp events) =
        events.map Emission.event ++
          (runChunk lp events).clicks.map (fun p => Emission.click p.2) ∧
      ∀ p ∈ (runChunk lp events).clicks,
        p.1 < events.length ∧
          ∃ er, events[p.1]? = some er ∧ er.action = MouseAction.release ∧
            p.2 = { er with action := MouseAction.click } := by
  constructor
  · unfold published runChunk
    rw [emits_noThrow]
  · intro p hp
    have hb := clicks_mem_bounds noThrow 0 lp events p hp
    have hr := clicks_release noThrow 0 lp events p hp
    refine ⟨by omega, ?_⟩
    simpa using hr

/-- Witness for `c9_publish_order`: press then release at (5,5) publishes
press, release, then the click, and the click's trigger index 1 precedes the
click's position. -/
theorem c9_publish_order_witness :
    published (runChunk none [mkEv 5 5 MouseAction.press,
        mkEv 5 5 MouseAction.release]) =
      [Emission.event (mkEv 5 5 MouseAction.press),
        Emission.event (mkEv 5 5 MouseAction.release),
        Emission.click { mkEv 5 5 MouseAction.release with action := MouseAction.click }] ∧
      (1 : Nat) < 2 := by
  have h := c9_publish_order none
    [mkEv 5 5 MouseAction.press, mkEv 5 5 MouseAction.release]
  constructor
  · rw [h.1]
    decide
  · exact (h.2 (1, { mkEv 5 5 MouseAction.release with action := MouseAction.click })
      (by decide)).1

/-! ## Claim C4 -/

/-- Claim C4 as stated is false at a concrete input: after `destroy()` on a
fresh instance (which succeeds), a subsequent `enable()` on an interactive
terminal is not a no-op — it succeeds and leaves `isEnabled() = true`,
because `destroy` sets no terminal flag. -/
theorem c4_counterexample :
    (destroy initEngine goodWorld).err = none ∧
      isEnabled (enable (destroy initEngine goodWorld).state
        (destroy initEngine goodWorld).world).state = true := by
  decide

/-- Claim C4 (amended): on a non-failing world, `destroy()` performs the
`disable()` sequence (leaving `isEnabled() = false` with the snapshots
cleared) and removes all listeners, and it is idempotent — but it is not
terminal: a subsequent `enable()` on an interactive terminal succeeds and
sets `isEnabled() = true` again. -/
theorem c4_destroy_idempotent_not_terminal (s : EngineState) (w : World)
    (hw : w.writeFails = false) (hr : w.setRawModeFails = false) :
    (destroy s w).err = none ∧
      isEnabled (destroy s w).state = false ∧
      (destroy s w).state.emitterHasListeners = false ∧
      destroy (destroy s w).state (destroy s w).world =
        ⟨none, (destroy s w).state, (destroy s w).world⟩ ∧
      (w.isTTY = true →
        isEnabled (enable (destroy s w).state (destroy s w).world).state = true) := by
  cases hse : s.enabled <;>
    rcases hsr : s.previousRawMode with _ | rm <;>
    rcases hsen : s.previousEncoding with _ | enc <;>
    simp [destroy, disable, enable, isEnabled, hw, hr, hse, hsr, hsen] <;>
    (intro htty; simp [htty])

/-- Witness for `c4_destroy_idempotent_not_terminal` at the fresh engine and
the all-good world. -/
theorem c4_destroy_witness :
    (destroy initEngine goodWorld).err = none ∧
      isEnabled (destroy initEngine goodWorld).state = false ∧
      (destroy initEngine goodWorld).state.emitterHasListeners = false ∧
      destroy (destroy initEngine goodWorld).state (destroy initEngine goodWorld).world =
        ⟨none, (destroy initEngine goodWorld).state, (destroy initEngine goodWorld).world⟩ ∧
      (goodWorld.isTTY = true →
        isEnabled (enable (destroy initEngine goodWorld).state
          (destroy initEngine goodWorld).world).state = true) :=
  c4_destroy_idempotent_not_terminal initEngine goodWorld rfl rfl

/-! ## Claim C5 -/

/-- Claim C5: an `enable()` that fails — non-interactive input, or a
write/raw-mode failure mid-sequence — surfaces its error with the `enabled`
flag rolled back to false; a non-TTY failure surfaces the plain TTY error
with the state untouched; and a `disable()` that fails mid-sequence surfaces
its error but still forces `enabled` to false. -/
theorem c5_lifecycle_errors (s : EngineState) (w : World) :
    ((enable s w).err.isSome = true → isEnabled (enable s w).state = false) ∧
      (s.enabled = false → w.isTTY = false →
        (enable s w).err = some MError.notTTY ∧ (enable s w).state = s) ∧
      (s.enabled = false → w.isTTY = true →
        (w.writeFails = true ∨ w.setRawModeFails = true) →
        (enable s w).err.isSome = true) ∧
      ((disable s w).err.isSome = true → isEnabled (disable s w).state = false) ∧
      (s.enabled = true → w.writeFails = true → (disable s w).err.isSome = true) := by
  cases hse : s.enabled <;>
    cases htty : w.isTTY <;>
    cases hwf : w.writeFails <;>
    cases hrf : w.setRawModeFails <;>
    rcases hsr : s.previousRawMode with _ | rm <;>
    simp [enable, disable, isEnabled, hse, htty, hwf, hrf, hsr]

/-- Witness for `c5_lifecycle_errors` at a world whose write calls fail: a
fresh enable attempt errors and leaves the engine disabled. -/
theorem c5_lifecycle_errors_witness :
    ((enable initEngine { goodWorld with writeFails := true }).err.isSome = true →
        isEnabled (enable initEngine { goodWorld with writeFails := true }).state = false) ∧
      (initEngine.enabled = false → ({ goodWorld with writeFails := true } : World).isTTY = false →
        (enable initEngine { goodWorld with writeFails := true }).err = some MError.notTTY ∧
          (enable initEngine { goodWorld with writeFails := true }).state = initEngine) ∧
      (initEngine.enabled = false → ({ goodWorld with writeFails := true } : World).isTTY = true →
        (({ goodWorld with writeFails := true } : World).writeFails = true ∨
          ({ goodWorld with writeFails := true } : World).setRawModeFails = true) →
        (enable initEngine { goodWorld with writeFails := true }).err.isSome = true) ∧
      ((disable initEngine { goodWorld with writeFails := true }).err.isSome = true →
        isEnabled (disable initEngine { goodWorld with writeFails := true }).state = false) ∧
      (initEngine.enabled = true → ({ goodWorld with writeFails := true } : World).writeFails = true →
        (disable initEngine { goodWorld with writeFails := true }).err.isSome = true) :=
  c5_lifecycle_errors initEngine { goodWorld with writeFails := true }

/-! ## Claim C10 -/

/-- Claim C10: when the abort signal fires while the consumer is not
suspended, the cancellation error is appended to the error FIFO, and the very
next pull — the signal now reads as aborted — raises the cancellation error
before yielding any buffered event. -/
theorem c10_abort_next_pull (st : PullState) (hnw : st.waiting = false) :
    (abortFire st).1.errorQueue = st.errorQueue ++ [MError.aborted] ∧
      (pullNext true (abortFire st).1).1 = PullStep.raise MError.aborted := by
  unfold abortFire pullNext
  simp [hnw]

/-- Witness for `c10_abort_next_pull`: a consumer with one buffered event and
no suspension; the abort is queued and the next pull raises it rather than
yielding the buffered event. -/
theorem c10_abort_next_pull_witness :
    (abortFire ⟨[mkEv 1 1 MouseAction.move], [], none, false⟩).1.errorQueue =
        [MError.aborted] ∧
      (pullNext true (abortFire ⟨[mkEv 1 1 MouseAction.move], [], none, false⟩).1).1 =
        PullStep.raise MError.aborted := by
  have h := c10_abort_next_pull ⟨[mkEv 1 1 MouseAction.move], [], none, false⟩ rfl
  simpa using h

/-! ## Claim C7 -/

/-- While the consumer never waits and the capacity is not yet reached, the
default-policy handler just appends: the queue grows by one per event. -/
theorem feed_grows (cap : Nat) (e : MouseEvent) (n : Nat) (st : PullState)
    (hw : st.waiting = false) (hn : st.queue.length + n ≤ cap) :
    feed (subPush cap false) st (List.replicate n e) =
      { st with queue := st.queue ++ List.replicate n e } := by
  induction n generalizing st with
  | zero => simp [feed]
  | succ n ih =>
    rw [List.replicate_succ]
    have hq : ¬ cap ≤ st.queue.length := by omega
    have hstep : (subPush cap false st e).1 = { st with queue := st.queue ++ [e] } := by
      simp [subPush, hw, hq]
    have hfeed : feed (subPush cap false) st (e :: List.replicate n e) =
        feed (subPush cap false) ((subPush cap false st e).1) (List.replicate n e) := by
      simp [feed]
    rw [hfeed, hstep,
      ih { st with queue := st.queue ++ [e] } hw (by simp; omega)]
    simp

/-- One handler step never pushes the queue beyond `max cap 1`: below
capacity it appends, and at capacity the shift-then-push nets a length of
`max (length) 1` — which at capacity 0 still leaves one buffered event. -/
theorem subPush_len (cap : Nat) (lo : Bool) (st : PullState) (e : MouseEvent)
    (h : st.queue.length ≤ max cap 1) :
    ((subPush cap lo st e).1).queue.length ≤ max cap 1 := by
  unfold subPush
  by_cases hw : st.waiting <;> by_cases hlo : lo = true <;>
    by_cases hq : cap ≤ st.queue.length <;>
    simp [hw, hlo, hq] <;> omega

/-- Feeding any event sequence preserves the `max cap 1` queue bound. -/
theorem feed_len (cap : Nat) (lo : Bool) (events : List MouseEvent)
    (st : PullState) (h : st.queue.length ≤ max cap 1) :
    (feed (subPush cap lo) st events).queue.length ≤ max cap 1 := by
  induction events generalizing st with
  | nil => simp only [feed, List.foldl_nil]; exact h
  | cons e l ih =>
    simp only [feed, List.foldl_cons]
    exact ih ((subPush cap lo st e).1) (subPush_len cap lo st e h)

/-- Claim C7 as stated is false twice over.  `stream` applies no ceiling to
the requested `maxQueue`: with 1500 requested, feeding 1001 events buffers
all 1001 of them, exceeding `min(1500, 1000) = 1000`.  And at a requested
`maxQueue` of 0 the overflow step `queue.shift(); queue.push(ev)` of *both*
generators nets one buffered event from an empty queue, exceeding
`min(0, 1000) = 0`. -/
theorem c7_counterexample :
    ¬ c7ClaimStatement ∧
      (feed (streamPush 1500 false) emptyPullState
        (List.replicate 1001 (mkEv 1 1 MouseAction.move))).queue.length = 1001 ∧
      (feed (eventsOfPush 0 false) emptyPullState
        [mkEv 1 1 MouseAction.move]).queue.length = 1 ∧
      (feed (streamPush 0 false) emptyPullState
        [mkEv 1 1 MouseAction.move]).queue.length = 1 := by
  have h3 : (feed (streamPush 1500 false) emptyPullState
      (List.replicate 1001 (mkEv 1 1 MouseAction.move))).queue.length = 1001 := by
    simp only [streamPush]
    rw [feed_grows 1500 (mkEv 1 1 MouseAction.move) 1001 emptyPullState rfl
      (by decide)]
    simp only [emptyPullState, List.nil_append, List.length_replicate]
  refine ⟨?_, h3, by decide, by decide⟩
  intro h
  have h2 := (h 1500 false (List.replicate 1001 (mkEv 1 1 MouseAction.move))).2
  rw [h3] at h2
  omega

/-- Claim C7 (amended): for every requested `maxQueue`, `eventsOf` clamps the
effective capacity to the hard ceiling 1000, but the overflow step
(`shift` then `push`) still nets one buffered event even at capacity 0, so
its buffering never exceeds `max(min(maxQueue, 1000), 1)`; `stream` applies
no ceiling — its buffering never exceeds `max(maxQueue, 1)`, and so goes
beyond 1000 when a larger `maxQueue` is requested. -/
theorem c7_queue_bounds (maxQueue : Nat) (latestOnly : Bool)
    (events : List MouseEvent) :
    (feed (eventsOfPush maxQueue latestOnly) emptyPullState events).queue.length ≤
        max (min maxQueue 1000) 1 ∧
      (feed (streamPush maxQueue latestOnly) emptyPullState events).queue.length ≤
        max maxQueue 1 := by
  constructor
  · simp only [eventsOfPush]
    exact feed_len (min maxQueue 1000) latestOnly events emptyPullState
      (by simp [emptyPullState])
  · simp only [streamPush]
    exact feed_len maxQueue latestOnly events emptyPullState
      (by simp [emptyPullState])

/-! ## Claim C8 -/

/-- `takeDigits` splits a digit run at the first non-digit. -/
theorem takeDigits_append (ds : List Char) (d : Char) (r : List Char)
    (hds : ∀ c ∈ ds, c.isDigit = true) (hd : d.isDigit = false) :
    takeDigits (ds ++ d :: r) = (ds, d :: r) := by
  induction ds with
  | nil => simp [takeDigits, hd]
  | cons c ds ih =>
    have hc : c.isDigit = true := hds c (by simp)
    have hds' : ∀ a ∈ ds, a.isDigit = true := fun a ha => hds a (by simp [ha])
    simp [takeDigits, hc, ih hds']

/-- A decimal digit is not the escape character. -/
theorem digit_ne_esc (c : Char) (h : c.isDigit = true) : c ≠ '\x1b' := by
  intro heq
  subst heq
  exact absurd h (by decide)

/-- The SGR pattern is anchored: it fails on any head other than ESC. -/
theorem sgrMatch_head (c : Char) (cs : List Char) (hc : c ≠ '\x1b') :
    sgrMatch (c :: cs) = none := by
  rcases cs with _ | ⟨c2, cs⟩
  · rfl
  rcases cs with _ | ⟨c3, cs⟩
  · rfl
  simp [sgrMatch, hc]

/-- The legacy pattern is anchored: it fails on any head other than ESC. -/
theorem escMatch_head (c : Char) (cs : List Char) (hc : c ≠ '\x1b') :
    escMatch (c :: cs) = none := by
  rcases cs with _ | ⟨c2, cs⟩
  · rfl
  rcases cs with _ | ⟨c3, cs⟩
  · rfl
  rcases cs with _ | ⟨c4, cs⟩
  · rfl
  rcases cs with _ | ⟨c5, cs⟩
  · rfl
  rcases cs with _ | ⟨c6, cs⟩
  · rfl
  simp [escMatch, hc]

/-- The legacy pattern rejects an SGR discriminator. -/
theorem escMatch_lt (r : List Char) :
    escMatch ('\x1b' :: '[' :: '<' :: r) = none := by
  rcases r with _ | ⟨c4, r⟩
  · rfl
  rcases r with _ | ⟨c5, r⟩
  · rfl
  rcases r with _ | ⟨c6, r⟩
  · rfl
  simp [escMatch]

/-- When both anchored patterns fail at the current position, the scanner
advances one character. -/
theorem scan_step_none (fuel : Nat) (last : Option String) (c : Char)
    (cs : List Char) (hs : sgrMatch (c :: cs) = none)
    (he : escMatch (c :: cs) = none) :
    scanAux (fuel + 1) last (c :: cs) = scanAux fuel last cs := by
  simp only [scanAux, hs, he]

/-- The scanner finds nothing in a chunk containing no escape character. -/
theorem scan_noEsc (fuel : Nat) (last : Option String) (s : List Char)
    (h : ∀ c ∈ s, c ≠ '\x1b') : scanAux fuel last s = [] := by
  induction fuel generalizing last s with
  | zero => rfl
  | succ fuel ih =>
    rcases s with _ | ⟨c, cs⟩
    · rfl
    · have hc : c ≠ '\x1b' := h c (by simp)
      simp only [scanAux, sgrMatch_head c cs hc, escMatch_head c cs hc]
      exact ih last cs (fun a ha => h a (by simp [ha]))

/-- A button field longer than 3 digits or a coordinate field longer than 4
digits fails the bounded SGR body. -/
theorem sgrBody_bad (b x y : List Char)
    (hb : ∀ c ∈ b, c.isDigit = true) (hx : ∀ c ∈ x, c.isDigit = true)
    (hy : ∀ c ∈ y, c.isDigit = true)
    (hlen : 3 < b.length ∨ 4 < x.length ∨ 4 < y.length) :
    sgrBody (b ++ ';' :: (x ++ ';' :: (y ++ ['M']))) = none := by
  have hsemi : (';' : Char).isDigit = false := by decide
  have hM : ('M' : Char).isDigit = false := by decide
  have htb := takeDigits_append b ';' (x ++ ';' :: (y ++ ['M'])) hb hsemi
  unfold sgrBody
  rw [htb]
  dsimp only
  by_cases h1 : b.length = 0 ∨ 3 < b.length
  · rw [if_pos h1]
  · rw [if_neg h1]
    have htx := takeDigits_append x ';' (y ++ ['M']) hx hsemi
    rw [htx]
    dsimp only
    rw [if_pos rfl]
    by_cases h2 : x.length = 0 ∨ 4 < x.length
    · rw [if_pos h2]
    · rw [if_neg h2]
      have hty := takeDigits_append y 'M' [] hy hM
      rw [hty]
      dsimp only
      rw [if_pos rfl]
      have h3 : y.length = 0 ∨ 4 < y.length := by
        rcases hlen with h | h | h
        · exact absurd (Or.inr h) h1
        · exact absurd (Or.inr h) h2
        · exact Or.inr h
      rw [if_pos h3]

/-- Claim C8: SGR matching is bounded — a button field longer than 3 digits
or a coordinate field longer than 4 digits makes the match fail, and a
non-digit character inside a numeric field likewise, yielding zero decoded
events rather than an error; in particular `ESC[<abc;10;20M` and the 5-digit
coordinate `ESC[<0;12345;20M` decode to no event. -/
theorem c8_sgr_bounded :
    (∀ b x y : List Char,
        (∀ c ∈ b, c.isDigit = true) → (∀ c ∈ x, c.isDigit = true) →
        (∀ c ∈ y, c.isDigit = true) →
        (3 < b.length ∨ 4 < x.length ∨ 4 < y.length) →
        parseMouseEventsFrom none
          ('\x1b' :: '[' :: '<' :: (b ++ ';' :: (x ++ ';' :: (y ++ ['M'])))) = []) ∧
      parseMouseEvents none "\x1b[<abc;10;20M" = [] ∧
      parseMouseEvents none "\x1b[<0;12345;20M" = [] := by
  refine ⟨?_, by decide, by decide⟩
  intro b x y hb hx hy hlen
  have hsgr : sgrMatch
      ('\x1b' :: '[' :: '<' :: (b ++ ';' :: (x ++ ';' :: (y ++ ['M'])))) = none := by
    simp [sgrMatch, sgrBody_bad b x y hb hx hy hlen]
  have hesc : escMatch
      ('\x1b' :: '[' :: '<' :: (b ++ ';' :: (x ++ ';' :: (y ++ ['M'])))) = none :=
    escMatch_lt _
  unfold parseMouseEventsFrom
  rw [show ('\x1b' :: '[' :: '<' ::
        (b ++ ';' :: (x ++ ';' :: (y ++ ['M'])))).length + 1 =
      ((b ++ ';' :: (x ++ ';' :: (y ++ ['M']))).length + 3) + 1 by simp]
  rw [scan_step_none ((b ++ ';' :: (x ++ ';' :: (y ++ ['M']))).length + 3) none
    '\x1b' ('[' :: '<' :: (b ++ ';' :: (x ++ ';' :: (y ++ ['M'])))) hsgr hesc]
  refine scan_noEsc _ _ _ fun a ha => ?_
  simp only [List.mem_cons, List.mem_append] at ha
  rcases ha with ha | ha | ha
  · subst ha; decide
  · subst ha; decide
  · rcases ha with ha | ha
    · exact digit_ne_esc a (hb a ha)
    · rcases ha with ha | ha
      · subst ha; decide
      · rcases ha with ha | ha
        · exact digit_ne_esc a (hx a ha)
        · rcases ha with ha | ha
          · subst ha; decide
          · rcases ha with ha | ha
            · exact digit_ne_esc a (hy a ha)
            · rcases ha with ha | ha
              · subst ha; decide
              · simp at ha

/-- Witness for `c8_sgr_bounded`: a 4-digit button field `1234` with in-range
coordinates decodes to no event. -/
theorem c8_sgr_bounded_witness :
    parseMouseEventsFrom none
      ('\x1b' :: '[' :: '<' ::
        (['1', '2', '3', '4'] ++ ';' :: (['1', '0'] ++ ';' :: (['2', '0'] ++ ['M'])))) = [] :=
  c8_sgr_bounded.1 ['1', '2', '3', '4'] ['1', '0'] ['2', '0']
    (by decide) (by decide) (by decide) (by decide)

end XtermMouse
